import Mathlib

/-!
# CTAG audio / MIDI libraries: a verification development

Shallow embedding of `CTAG_Audio.cpp` / `CTAG_Audio.h` (codec driver, audio
engine block-fill loop, sine oscillator) and of the pitch-bend path of
`CTAG_MIDI`, followed by the theorems about them.

Conventions
* `uint8_t` values are `Nat` (bytes on the bus), `long` / `int16_t` values are `Int`;
  narrowing conversions are written out (`toInt8`, `toUInt8`, `floatToInt16`).
* `float` values are elements of an ordered field `F` with a floor function; the
  platform's `sin` and `M_PI` are parameters.  The numerical theorems instantiate
  them with `Real.sin` and `Real.pi` (exact real arithmetic).  A second embedding of
  the oscillator (`XFloat`, namespace `IEEE`) adds the IEEE 754 infinities and NaN,
  for the statements in which a zero sample rate or a NaN argument matters.
* The two-wire bus and the I2S sink are modelled by the list of transactions
  they have received.
-/

namespace CTAG

/-! ## Platform pieces used by the sources -/

/-- Modelled from the spec: the Arduino `constrain(amt, low, high)` macro, which is not
under src/ ("clamping input to [0,100] first", "clamps to [0.0, 1.0]"):
`((amt)<(low)?(low):((amt)>(high)?(high):(amt)))`. -/
def constrain {α : Type} [LinearOrder α] (amt low high : α) : α :=
  if amt < low then low else if amt > high then high else amt

/-- Modelled from the spec: the Arduino `map(x, in_min, in_max, out_min, out_max)` helper,
which is not under src/ ("map a 0–100 linear input onto a vendor-specific inverted
register range via linear interpolation"): `long` arithmetic,
`(x - in_min) * (out_max - out_min) / (in_max - in_min) + out_min`, the division being
C division (truncating toward zero). -/
def map (x in_min in_max out_min out_max : Int) : Int :=
  Int.tdiv ((x - in_min) * (out_max - out_min)) (in_max - in_min) + out_min

/-- Conversion of an integer to `int8_t` (two's complement wrap). -/
def toInt8 (x : Int) : Int := (x + 128) % 256 - 128

/-- Conversion of an integer to `uint8_t`. -/
def toUInt8 (x : Int) : Nat := (x % 256).toNat

/-- Modelled from the spec: the two-wire control bus object `Wire`, which is not under
src/ ("addressed read/write of 8-bit registers ... using a documented transaction
framing (start-address-write-register-value-stop)").  A transaction is opened for an
address, collects the bytes written, and is put on the bus when it is ended; `sent` is
the list of completed transactions, oldest first. -/
structure TwoWire where
  txAddress : Nat
  txBuffer : List Nat
  sent : List (Nat × List Nat)
deriving DecidableEq

namespace TwoWire

/-- The call `Wire.beginTransmission(address)`. -/
def beginTransmission (w : TwoWire) (address : Nat) : TwoWire :=
  { w with txAddress := address, txBuffer := [] }

/-- The call `Wire.write(b)`. -/
def write (w : TwoWire) (b : Nat) : TwoWire :=
  { w with txBuffer := w.txBuffer ++ [b] }

/-- The call `Wire.endTransmission()`. -/
def endTransmission (w : TwoWire) : TwoWire :=
  { w with txBuffer := [], sent := w.sent ++ [(w.txAddress, w.txBuffer)] }

end TwoWire

/-! ## Layer 1: `CTAG_AudioCodec` -/

/-- The codec driver object: its only member is the bus address. -/
structure CTAG_AudioCodec where
  _i2c_addr : Nat
deriving DecidableEq

namespace CTAG_AudioCodec

/-- The method `CTAG_AudioCodec::_write_register(page, reg, value)`. -/
def _write_register (c : CTAG_AudioCodec) (page reg value : Nat) (w : TwoWire) : TwoWire :=
  let w := w.beginTransmission c._i2c_addr
  let w := w.write 0x00
  let w := w.write page
  let w := w.endTransmission
  let w := w.beginTransmission c._i2c_addr
  let w := w.write reg
  let w := w.write value
  w.endTransmission

/-- The method `CTAG_AudioCodec::setHeadphoneVolume(uint8_t volume)`; the argument is a
`uint8_t`, a value below 256.  The macro `constrain` works on the promoted `int`, its
result is stored back into the `uint8_t`; `map` returns a `long`, stored into an `int8_t`
and cast to `uint8_t` for the bus. -/
def setHeadphoneVolume (c : CTAG_AudioCodec) (volume : Nat) (w : TwoWire) : TwoWire :=
  let volume : Nat := toUInt8 (constrain (volume : Int) 0 100)
  let reg_val : Int := toInt8 (map volume 0 100 0x3B 0x14)
  let w := c._write_register 1 16 (toUInt8 reg_val) w
  c._write_register 1 17 (toUInt8 reg_val) w

/-- The method `CTAG_AudioCodec::setLineOutVolume(uint8_t volume)`, the same computation
with the line-out range and registers. -/
def setLineOutVolume (c : CTAG_AudioCodec) (volume : Nat) (w : TwoWire) : TwoWire :=
  let volume : Nat := toUInt8 (constrain (volume : Int) 0 100)
  let reg_val : Int := toInt8 (map volume 0 100 0x3A 0x1D)
  let w := c._write_register 1 18 (toUInt8 reg_val) w
  c._write_register 1 19 (toUInt8 reg_val) w

end CTAG_AudioCodec

/-! ## Layer 2: `CTAG_AudioEngine` -/

namespace CTAG_AudioEngine

/-- Modelled from the spec: the hardware audio sink, which is not under src/ ("consumes
fixed-size interleaved 16-bit stereo sample blocks ...; accepts a blocking write block
operation").  One record per call `i2s_write(port, src, size, &bytes_written,
portMAX_DELAY)`: the port, the `int16_t` values lying in the `size` bytes that start at
`src`, and `size` itself. -/
structure I2SWrite where
  port : Nat
  data : List Int
  size : Nat
deriving DecidableEq

/-- State of the engine while `audio_task` runs, for a source whose object state has type
`σ`: the namespace globals `currentSource` (`none` is `nullptr`, `some s` a bound source
whose object is in state `s`) and `_i2s_port`, the task's local array `i2s_buffer`, and
two logs: `pulled`, the values returned by the calls of `getNextSample` so far (one entry
per call, oldest first), and `written`, the calls of `i2s_write` so far. -/
structure TaskState (σ : Type) where
  currentSource : Option σ
  _i2s_port : Nat
  i2s_buffer : List Int
  pulled : List Int
  written : List I2SWrite

/-- The constant `buffer_samples` of `audio_task`. -/
def buffer_samples : Nat := 256

/-- The size in bytes of one `int16_t`. -/
def sizeof_int16 : Nat := 2

/-- The value `sizeof(i2s_buffer)` for `int16_t i2s_buffer[buffer_samples * 2]`. -/
def sizeof_i2s_buffer : Nat := buffer_samples * 2 * sizeof_int16

/-- The body of the `for` loop of `audio_task` at index `i`; `getNextSample` is the virtual
method of the bound source (it returns an `int16_t` and the object's next state). -/
def loopBody {σ : Type} (getNextSample : σ → Int × σ) (i : Nat) (st : TaskState σ) :
    TaskState σ :=
  match st.currentSource with
  | some src =>
    let sample := (getNextSample src).1
    { st with
      currentSource := some (getNextSample src).2
      pulled := st.pulled ++ [sample]
      i2s_buffer := (st.i2s_buffer.set i sample).set (i + 1) sample }
  | none =>
    { st with i2s_buffer := (st.i2s_buffer.set i 0).set (i + 1) 0 }

/-- The loop `for (int i = 0; i < buffer_samples * 2; i += 2)` of `audio_task`, entered at
index `i`; `none` when the fuel runs out before the loop condition fails. -/
def forLoop {σ : Type} (getNextSample : σ → Int × σ) :
    Nat → Nat → TaskState σ → Option (TaskState σ)
  | 0, _, _ => none
  | fuel + 1, i, st =>
    if i < buffer_samples * 2 then
      forLoop getNextSample fuel (i + 2) (loopBody getNextSample i st)
    else
      some st

/-- The call `i2s_write(_i2s_port, i2s_buffer, sizeof(i2s_buffer), &bytes_written,
portMAX_DELAY)`: the sink receives the `int16_t` values in the first `size` bytes of the
array. -/
def i2s_write {σ : Type} (st : TaskState σ) (size : Nat) : TaskState σ :=
  { st with
    written := st.written ++
      [{ port := st._i2s_port, data := st.i2s_buffer.take (size / sizeof_int16), size := size }] }

/-- One pass through the body of `while(true)` in `audio_task`: fill the block, then hand
it to the sink. -/
def audio_task_iteration {σ : Type} (getNextSample : σ → Int × σ) (fuel : Nat)
    (st : TaskState σ) : Option (TaskState σ) :=
  match forLoop getNextSample fuel 0 st with
  | none => none
  | some st1 => some (i2s_write st1 sizeof_i2s_buffer)

/-- The function `CTAG_AudioEngine::setSource`. -/
def setSource {σ : Type} (source : Option σ) (st : TaskState σ) : TaskState σ :=
  { st with currentSource := source }

/-- State of a source object after `n` calls of its `getNextSample`. -/
def sourceAfter {σ : Type} (getNextSample : σ → Int × σ) (s : σ) : Nat → σ
  | 0 => s
  | n + 1 => sourceAfter getNextSample (getNextSample s).2 n

/-- The value returned by call number `k` (counting from 0) of `getNextSample` on a source
object that starts in state `s`. -/
def sampleAt {σ : Type} (getNextSample : σ → Int × σ) (s : σ) (k : Nat) : Int :=
  (getNextSample (sourceAfter getNextSample s k)).1

/-- The loop body applied `m` times, at the indices `2 * k`, `2 * k + 2`, ... -/
def bodies {σ : Type} (getNextSample : σ → Int × σ) : Nat → Nat → TaskState σ → TaskState σ
  | 0, _, st => st
  | m + 1, k, st => bodies getNextSample m (k + 1) (loopBody getNextSample (2 * k) st)

end CTAG_AudioEngine

/-! ## Layer 3: `CTAG_VCO_Sine`

`float` values are taken in an ordered field `F` with a floor function; the `sin` of
`<math.h>` and the constant `M_PI` are the parameters `sin` and `M_PI`. -/

/-- The data members of a `CTAG_VCO_Sine` object. -/
structure CTAG_VCO_Sine (F : Type) where
  _sampleRate : F
  _frequency : F
  _amplitude : F
  _phase : F
  _phase_increment : F
deriving DecidableEq

/-- The integer part of a `float`, as a C conversion to an integer type takes it
(truncation toward zero). -/
def truncate {F : Type} [LinearOrderedField F] [FloorRing F] (x : F) : Int :=
  if 0 ≤ x then ⌊x⌋ else ⌈x⌉

/-- The conversion `(int16_t)x` of a `float`: the truncated value when `int16_t` can
represent it; otherwise the conversion has no defined result (`none`). -/
def floatToInt16 {F : Type} [LinearOrderedField F] [FloorRing F] (x : F) : Option Int :=
  if -32768 ≤ truncate x ∧ truncate x ≤ 32767 then some (truncate x) else none

namespace CTAG_VCO_Sine

variable {F : Type} [LinearOrderedField F]

/-- The method `CTAG_VCO_Sine::setFrequency(float freq)`.  In a field the quotient by a
zero `_sampleRate` is not the `float` quotient (an infinity or NaN): statements on this
embedding assume a positive sample rate, and `IEEE.setFrequency` covers the rest. -/
def setFrequency (M_PI : F) (o : CTAG_VCO_Sine F) (freq : F) : CTAG_VCO_Sine F :=
  { o with
    _frequency := freq
    _phase_increment := (2 * M_PI * freq) / o._sampleRate }

/-- The constructor `CTAG_VCO_Sine::CTAG_VCO_Sine(float sampleRate)`: the member
initialisers, then `setFrequency(_frequency)`.  The member `_phase_increment` has no
initialiser; the 0 put here is overwritten by `setFrequency`. -/
def new (M_PI : F) (sampleRate : F) : CTAG_VCO_Sine F :=
  setFrequency M_PI
    { _sampleRate := sampleRate, _frequency := 440, _amplitude := 1 / 2, _phase := 0,
      _phase_increment := 0 }
    440

/-- The method `CTAG_VCO_Sine::setAmplitude(float amp)`. -/
def setAmplitude (o : CTAG_VCO_Sine F) (amp : F) : CTAG_VCO_Sine F :=
  { o with _amplitude := constrain amp 0 1 }

/-- The method `CTAG_VCO_Sine::getNextSample()`: the returned sample (`none` when the
conversion to `int16_t` is not defined) and the object afterwards. -/
def getNextSample [FloorRing F] (sin : F → F) (M_PI : F) (o : CTAG_VCO_Sine F) :
    Option Int × CTAG_VCO_Sine F :=
  let sample := floatToInt16 (o._amplitude * 32767 * sin o._phase)
  let phase := o._phase + o._phase_increment
  let phase := if phase ≥ 2 * M_PI then phase - 2 * M_PI else phase
  (sample, { o with _phase := phase })

/-- A call of one of the public methods of the oscillator. -/
inductive Call (F : Type) where
  | setFrequency (freq : F)
  | setAmplitude (amp : F)
  | getNextSample
deriving DecidableEq

/-- The object after one method call. -/
def call [FloorRing F] (sin : F → F) (M_PI : F) (o : CTAG_VCO_Sine F) : Call F → CTAG_VCO_Sine F
  | Call.setFrequency freq => setFrequency M_PI o freq
  | Call.setAmplitude amp => setAmplitude o amp
  | Call.getNextSample => (getNextSample sin M_PI o).2

/-- The object after a sequence of method calls, first call first. -/
def calls [FloorRing F] (sin : F → F) (M_PI : F) (o : CTAG_VCO_Sine F) (cs : List (Call F)) :
    CTAG_VCO_Sine F :=
  cs.foldl (call sin M_PI) o

/-- A call whose frequency argument, if it has one, lies between 0 and the sample rate
`r`. -/
def Call.frequencyWithin (r : F) : Call F → Prop
  | Call.setFrequency freq => 0 ≤ freq ∧ freq ≤ r
  | _ => True

end CTAG_VCO_Sine

/-! ## `CTAG_VCO_Sine` with the IEEE 754 special values

The embedding above takes `float` in a field, where a division by zero, an infinity or a
NaN cannot be written down.  The embedding below takes `float` as a finite value, an
infinity or NaN, with the IEEE 754 rules for the special values in `+`, `-`, `*`, `/`,
the comparisons and `sin`.  Finite results are exact (no rounding, no overflow): what is
proved on it concerns the comparisons of `constrain`, the special values, and the range
of one product. -/

/-- A `float`: a finite value, plus or minus infinity (`inf true` is minus infinity), or
NaN.  Zero is taken as `+0`. -/
inductive XFloat (F : Type) where
  | fin (x : F)
  | inf (negative : Bool)
  | nan

namespace XFloat

variable {F : Type} [LinearOrderedField F]

/-- Negation. -/
def neg : XFloat F → XFloat F
  | fin x => fin (-x)
  | inf s => inf (!s)
  | nan => nan

/-- Addition: infinities of opposite sign add to NaN. -/
def add : XFloat F → XFloat F → XFloat F
  | fin x, fin y => fin (x + y)
  | fin _, inf s => inf s
  | inf s, fin _ => inf s
  | inf s, inf t => if s = t then inf s else nan
  | nan, _ => nan
  | _, nan => nan

/-- Subtraction. -/
def sub (a b : XFloat F) : XFloat F := add a (neg b)

/-- Multiplication: zero times an infinity is NaN. -/
def mul : XFloat F → XFloat F → XFloat F
  | fin x, fin y => fin (x * y)
  | fin x, inf s => if x = 0 then nan else inf (xor (decide (x < 0)) s)
  | inf s, fin y => if y = 0 then nan else inf (xor s (decide (y < 0)))
  | inf s, inf t => inf (xor s t)
  | nan, _ => nan
  | _, nan => nan

/-- Division: a non-zero finite value over zero is an infinity, zero over zero and
infinity over infinity are NaN. -/
def div : XFloat F → XFloat F → XFloat F
  | fin x, fin y =>
    if y = 0 then (if x = 0 then nan else inf (decide (x < 0))) else fin (x / y)
  | fin _, inf _ => fin 0
  | inf s, fin y => inf (xor s (decide (y < 0)))
  | inf _, inf _ => nan
  | nan, _ => nan
  | _, nan => nan

/-- The comparison `a < b`; false when either side is NaN. -/
def lt : XFloat F → XFloat F → Bool
  | fin x, fin y => decide (x < y)
  | fin _, inf s => !s
  | inf s, fin _ => s
  | inf s, inf t => s && !t
  | nan, _ => false
  | _, nan => false

/-- The comparison `a <= b`; false when either side is NaN. -/
def le : XFloat F → XFloat F → Bool
  | fin x, fin y => decide (x ≤ y)
  | fin _, inf s => !s
  | inf s, fin _ => s
  | inf s, inf t => s || !t
  | nan, _ => false
  | _, nan => false

/-- The `sin` of `<math.h>`: NaN at an infinity and at NaN. -/
def sin (sinF : F → F) : XFloat F → XFloat F
  | fin x => fin (sinF x)
  | inf _ => nan
  | nan => nan

/-- The conversion `(int16_t)x`: defined for a finite value whose truncation `int16_t`
can represent, not defined (`none`) otherwise, in particular for an infinity and NaN. -/
def toInt16 [FloorRing F] : XFloat F → Option Int
  | fin x => floatToInt16 x
  | inf _ => none
  | nan => none

end XFloat

namespace IEEE

variable {F : Type} [LinearOrderedField F]

/-- Modelled from the spec: the Arduino `constrain(amt, low, high)` macro (not under src/),
`((amt)<(low)?(low):((amt)>(high)?(high):(amt)))`, on `float` operands with the IEEE
comparisons. -/
def constrain (amt low high : XFloat F) : XFloat F :=
  if amt.lt low then low else if high.lt amt then high else amt

/-- The method `CTAG_VCO_Sine::setFrequency(float freq)`. -/
def setFrequency (M_PI : F) (o : CTAG_VCO_Sine (XFloat F)) (freq : XFloat F) :
    CTAG_VCO_Sine (XFloat F) :=
  { o with
    _frequency := freq
    _phase_increment :=
      (((XFloat.fin 2).mul (XFloat.fin M_PI)).mul freq).div o._sampleRate }

/-- The constructor `CTAG_VCO_Sine::CTAG_VCO_Sine(float sampleRate)`: the member
initialisers, then `setFrequency(_frequency)`, which overwrites the placeholder put in
`_phase_increment`. -/
def new (M_PI : F) (sampleRate : XFloat F) : CTAG_VCO_Sine (XFloat F) :=
  setFrequency M_PI
    { _sampleRate := sampleRate, _frequency := XFloat.fin 440, _amplitude := XFloat.fin (1 / 2),
      _phase := XFloat.fin 0, _phase_increment := XFloat.fin 0 }
    (XFloat.fin 440)

/-- The method `CTAG_VCO_Sine::setAmplitude(float amp)`. -/
def setAmplitude (o : CTAG_VCO_Sine (XFloat F)) (amp : XFloat F) : CTAG_VCO_Sine (XFloat F) :=
  { o with _amplitude := constrain amp (XFloat.fin 0) (XFloat.fin 1) }

/-- The value `_amplitude * 32767.0f * sin(_phase)` that `getNextSample` converts. -/
def sampleValue (sinF : F → F) (o : CTAG_VCO_Sine (XFloat F)) : XFloat F :=
  (o._amplitude.mul (XFloat.fin 32767)).mul (XFloat.sin sinF o._phase)

/-- The method `CTAG_VCO_Sine::getNextSample()`: the returned sample (`none` when the
conversion to `int16_t` is not defined) and the object afterwards. -/
def getNextSample [FloorRing F] (sinF : F → F) (M_PI : F) (o : CTAG_VCO_Sine (XFloat F)) :
    Option Int × CTAG_VCO_Sine (XFloat F) :=
  let sample := (sampleValue sinF o).toInt16
  let phase := o._phase.add o._phase_increment
  let phase :=
    if ((XFloat.fin 2).mul (XFloat.fin M_PI)).le phase
    then phase.sub ((XFloat.fin 2).mul (XFloat.fin M_PI))
    else phase
  (sample, { o with _phase := phase })

/-- The object after one method call. -/
def call [FloorRing F] (sinF : F → F) (M_PI : F) (o : CTAG_VCO_Sine (XFloat F)) :
    CTAG_VCO_Sine.Call (XFloat F) → CTAG_VCO_Sine (XFloat F)
  | CTAG_VCO_Sine.Call.setFrequency freq => setFrequency M_PI o freq
  | CTAG_VCO_Sine.Call.setAmplitude amp => setAmplitude o amp
  | CTAG_VCO_Sine.Call.getNextSample => (getNextSample sinF M_PI o).2

/-- The object after a sequence of method calls, first call first. -/
def calls [FloorRing F] (sinF : F → F) (M_PI : F) (o : CTAG_VCO_Sine (XFloat F))
    (cs : List (CTAG_VCO_Sine.Call (XFloat F))) : CTAG_VCO_Sine (XFloat F) :=
  cs.foldl (call sinF M_PI) o

end IEEE

/-! ## `CTAG_MIDI`: pitch-bend transmit and parse

Only the header `CTAG_MIDI.h` is under src/; the bodies of `sendPitchBend` and `parse` are
taken from the specification (sections 4.1 and 4.2). -/

/-- An invocation of one of the five callbacks of `CTAG_MIDI.h`, with its arguments. -/
inductive MidiEvent where
  | noteOn (channel note velocity : Nat)
  | noteOff (channel note velocity : Nat)
  | controlChange (channel controller value : Nat)
  | programChange (channel program : Nat)
  | pitchBend (channel : Nat) (value : Int)
deriving DecidableEq

/-- The members of a `CTAG_MIDI` object as the header declares them (`status`, `data1`,
`data2`, the five callback slots, `true` meaning a handler is registered), the count of
data bytes received for the current message that the specification gives the parser, and
two logs: `sent`, the bytes written to the port, and `invoked`, the callback invocations,
both oldest first. -/
structure CTAG_MIDI where
  status : Nat
  count : Nat
  data1 : Nat
  data2 : Nat
  handleNoteOn : Bool
  handleNoteOff : Bool
  handleControlChange : Bool
  handleProgramChange : Bool
  handlePitchBend : Bool
  sent : List Nat
  invoked : List MidiEvent
deriving DecidableEq

namespace CTAG_MIDI

/-- Modelled from the spec: `CTAG_MIDI::sendPitchBend(int value, byte channel)`, whose body
(CTAG_MIDI.cpp) is not under src/.  "Channel numbers are accepted in 1–16 user-facing form
and converted to 0–15 on the wire by subtracting 1 before being combined with the
message-type nibble.  Pitch bend input range −8192..+8191 is re-centered to unsigned
0..16383 by adding 8192, then split into LSB/MSB 7-bit bytes, LSB first." -/
def sendPitchBend (m : CTAG_MIDI) (value : Int) (channel : Nat) : CTAG_MIDI :=
  let bend : Int := value + 8192
  let lsb : Nat := (bend % 128).toNat
  let msb : Nat := (bend / 128 % 128).toNat
  { m with sent := m.sent ++ [0xE0 + (channel - 1), lsb, msb] }

/-- Modelled from the spec: the number of data bytes of the message that running status
`status` announces; the parser body is not under src/.  "Program Change and Channel
Pressure use exactly one data byte; all other channel-voice messages use two." -/
def dataBytesNeeded (status : Nat) : Nat :=
  if status / 16 = 0xC ∨ status / 16 = 0xD then 1 else 2

/-- Modelled from the spec: decoding and dispatch of a completed message; the parser body
is not under src/.  "the message is decoded and the matching callback (if registered) is
invoked synchronously"; the channel passed is the status low nibble plus 1 ("bytes
0x90 0x3C 0x64 on channel-nibble 0 → Note On callback with channel=1"); "Pitch Bend
combines two 7-bit data bytes (LSB first, MSB second) into a 14-bit unsigned value
(0–16383), then re-centers it to a signed range of −8192..+8191 by subtracting 8192." -/
def dispatch (m : CTAG_MIDI) : CTAG_MIDI :=
  let channel := m.status % 16 + 1
  if m.status / 16 = 0x8 then
    if m.handleNoteOff then
      { m with invoked := m.invoked ++ [MidiEvent.noteOff channel m.data1 m.data2] }
    else m
  else if m.status / 16 = 0x9 then
    if m.handleNoteOn then
      { m with invoked := m.invoked ++ [MidiEvent.noteOn channel m.data1 m.data2] }
    else m
  else if m.status / 16 = 0xB then
    if m.handleControlChange then
      { m with invoked := m.invoked ++ [MidiEvent.controlChange channel m.data1 m.data2] }
    else m
  else if m.status / 16 = 0xC then
    if m.handleProgramChange then
      { m with invoked := m.invoked ++ [MidiEvent.programChange channel m.data1] }
    else m
  else if m.status / 16 = 0xE then
    if m.handlePitchBend then
      { m with invoked := m.invoked ++
          [MidiEvent.pitchBend channel (((m.data1 + m.data2 * 128 : Nat) : Int) - 8192)] }
    else m
  else m

/-- Modelled from the spec: `CTAG_MIDI::parse(byte midiByte)`, whose body (CTAG_MIDI.cpp)
is not under src/.  Section 4.1: a byte ≥ 0xF8 (System Real-Time) alters neither
the running status nor the data-byte count (none of the five callbacks is for such a
byte); another status byte (≥ 0x80) is "stored as the new running status; data-byte
counter reset to 0"; a data byte is "discarded" when no running status is established,
else "stored into the next free data slot (first or second)", and "on completion of the
required data bytes" the message is dispatched and "the data-byte counter resets to 0". -/
def parse (m : CTAG_MIDI) (midiByte : Nat) : CTAG_MIDI :=
  if 0xF8 ≤ midiByte then m
  else if 0x80 ≤ midiByte then { m with status := midiByte, count := 0 }
  else if m.status < 0x80 then m
  else if m.count = 0 then
    if dataBytesNeeded m.status = 1 then
      { dispatch { m with data1 := midiByte } with count := 0 }
    else
      { m with data1 := midiByte, count := 1 }
  else
    { dispatch { m with data2 := midiByte } with count := 0 }

/-- The parser fed a sequence of bytes, first byte first (what `read()` does with the bytes
the port delivers). -/
def feed (m : CTAG_MIDI) (bytes : List Nat) : CTAG_MIDI :=
  bytes.foldl parse m

end CTAG_MIDI

/-! ## Theorems -/

section CodecTheorems

open CTAG_AudioCodec

/-- Bus effect of one `_write_register`: a page-select transaction followed by the
register transaction, whatever was pending before. -/
theorem write_register_sent (c : CTAG_AudioCodec) (page reg value : Nat) (w : TwoWire) :
    c._write_register page reg value w =
      { txAddress := c._i2c_addr, txBuffer := [],
        sent := w.sent ++ [(c._i2c_addr, [0x00, page]), (c._i2c_addr, [reg, value])] } := by
  simp [_write_register, TwoWire.beginTransmission, TwoWire.write, TwoWire.endTransmission]

/-- The clamped volume of the setters, for an in-range request. -/
theorem constrain_volume_le (v : Nat) (h : v ≤ 100) :
    toUInt8 (constrain (v : Int) 0 100) = v := by
  unfold constrain toUInt8
  have h1 : ¬ ((v : Int) < 0) := by omega
  have h2 : ¬ ((v : Int) > 100) := by omega
  simp only [h1, h2, if_false]
  omega

/-- The clamped volume of the setters, for a request above the range. -/
theorem constrain_volume_gt (v : Nat) (h : 100 < v) :
    toUInt8 (constrain (v : Int) 0 100) = 100 := by
  unfold constrain toUInt8
  have h1 : ¬ ((v : Int) < 0) := by omega
  have h2 : ((v : Int) > 100) := by omega
  simp only [h1, h2, if_false, if_true]
  rfl

/-- C division of a non-positive product by 100, in terms of natural division. -/
theorem tdiv_neg_scale (v k : Nat) :
    Int.tdiv ((v : Int) * (-(k : Int))) 100 = -(((v * k / 100 : Nat) : Int)) := by
  have : (v : Int) * (-(k : Int)) = -(((v * k : Nat) : Int)) := by push_cast; ring
  rw [this, Int.neg_tdiv]
  congr 1

/-- The register value the headphone setter writes, as a byte. -/
theorem headphone_reg_val (v : Nat) (h : v ≤ 100) :
    toUInt8 (toInt8 (map (v : Int) 0 100 0x3B 0x14)) = 59 - v * 39 / 100 ∧
    0x3B + Int.tdiv ((v : Int) * (0x14 - 0x3B)) 100 = ((59 - v * 39 / 100 : Nat) : Int) := by
  have hs : Int.tdiv ((v : Int) * (-((39 : Nat) : Int))) 100 = -(((v * 39 / 100 : Nat) : Int)) :=
    tdiv_neg_scale v 39
  have e1 : ((v : Int) - 0) * (0x14 - 0x3B) = (v : Int) * (-((39 : Nat) : Int)) := by
    push_cast; ring
  have e2 : (v : Int) * (0x14 - 0x3B) = (v : Int) * (-((39 : Nat) : Int)) := by
    push_cast; ring
  have hq : v * 39 / 100 ≤ 39 := by omega
  refine ⟨?_, ?_⟩
  · unfold map toInt8 toUInt8
    rw [show ((100 : Int) - 0) = 100 by norm_num, e1, hs]
    omega
  · rw [e2, hs]
    omega

/-- The register value the line-out setter writes, as a byte. -/
theorem lineout_reg_val (v : Nat) (h : v ≤ 100) :
    toUInt8 (toInt8 (map (v : Int) 0 100 0x3A 0x1D)) = 58 - v * 29 / 100 ∧
    0x3A + Int.tdiv ((v : Int) * (0x1D - 0x3A)) 100 = ((58 - v * 29 / 100 : Nat) : Int) := by
  have hs : Int.tdiv ((v : Int) * (-((29 : Nat) : Int))) 100 = -(((v * 29 / 100 : Nat) : Int)) :=
    tdiv_neg_scale v 29
  have e1 : ((v : Int) - 0) * (0x1D - 0x3A) = (v : Int) * (-((29 : Nat) : Int)) := by
    push_cast; ring
  have e2 : (v : Int) * (0x1D - 0x3A) = (v : Int) * (-((29 : Nat) : Int)) := by
    push_cast; ring
  have hq : v * 29 / 100 ≤ 29 := by omega
  refine ⟨?_, ?_⟩
  · unfold map toInt8 toUInt8
    rw [show ((100 : Int) - 0) = 100 by norm_num, e1, hs]
    omega
  · rw [e2, hs]
    omega

/-- Bus effect of `setHeadphoneVolume`, in terms of the byte it computes. -/
theorem setHeadphoneVolume_sent (c : CTAG_AudioCodec) (v : Nat) (w : TwoWire) :
    (c.setHeadphoneVolume v w).sent = w.sent ++
      [(c._i2c_addr, [0x00, 1]),
       (c._i2c_addr, [16, toUInt8 (toInt8 (map (toUInt8 (constrain (v : Int) 0 100)) 0 100 0x3B 0x14))]),
       (c._i2c_addr, [0x00, 1]),
       (c._i2c_addr, [17, toUInt8 (toInt8 (map (toUInt8 (constrain (v : Int) 0 100)) 0 100 0x3B 0x14))])] := by
  simp [setHeadphoneVolume, write_register_sent]

/-- Bus effect of `setLineOutVolume`, in terms of the byte it computes. -/
theorem setLineOutVolume_sent (c : CTAG_AudioCodec) (v : Nat) (w : TwoWire) :
    (c.setLineOutVolume v w).sent = w.sent ++
      [(c._i2c_addr, [0x00, 1]),
       (c._i2c_addr, [18, toUInt8 (toInt8 (map (toUInt8 (constrain (v : Int) 0 100)) 0 100 0x3A 0x1D))]),
       (c._i2c_addr, [0x00, 1]),
       (c._i2c_addr, [19, toUInt8 (toInt8 (map (toUInt8 (constrain (v : Int) 0 100)) 0 100 0x3A 0x1D))])] := by
  simp [setLineOutVolume, write_register_sent]

/-- C3: for every 8-bit volume above 100, `setHeadphoneVolume` and `setLineOutVolume`
leave the bus object exactly as the same call with volume 100 does: the same sequence of
transactions is issued (in particular for 150). -/
theorem volume_above_100_clamped (c : CTAG_AudioCodec) (w : TwoWire) (v : Nat)
    (hlo : 100 < v) (_hhi : v ≤ 255) :
    c.setHeadphoneVolume v w = c.setHeadphoneVolume 100 w ∧
    c.setLineOutVolume v w = c.setLineOutVolume 100 w ∧
    (c.setHeadphoneVolume v w).sent = (c.setHeadphoneVolume 100 w).sent ∧
    (c.setLineOutVolume v w).sent = (c.setLineOutVolume 100 w).sent := by
  have h1 : c.setHeadphoneVolume v w = c.setHeadphoneVolume 100 w := by
    unfold setHeadphoneVolume
    rw [constrain_volume_gt v hlo, constrain_volume_le 100 (le_refl _)]
  have h2 : c.setLineOutVolume v w = c.setLineOutVolume 100 w := by
    unfold setLineOutVolume
    rw [constrain_volume_gt v hlo, constrain_volume_le 100 (le_refl _)]
  exact ⟨h1, h2, by rw [h1], by rw [h2]⟩

/-- Witness for C3 at volume 150 on an idle bus, codec at address 0x18. -/
theorem volume_above_100_clamped_witness :
    (CTAG_AudioCodec.mk 0x18).setHeadphoneVolume 150 ⟨0, [], []⟩ =
      (CTAG_AudioCodec.mk 0x18).setHeadphoneVolume 100 ⟨0, [], []⟩ ∧
    ((CTAG_AudioCodec.mk 0x18).setHeadphoneVolume 150 ⟨0, [], []⟩).sent =
      [(0x18, [0x00, 1]), (0x18, [16, 0x14]), (0x18, [0x00, 1]), (0x18, [17, 0x14])] :=
  ⟨(volume_above_100_clamped ⟨0x18⟩ ⟨0, [], []⟩ 150 (by decide) (by decide)).1, by decide⟩

/-- C4: for every volume in 0..100, `setHeadphoneVolume` writes the byte
`0x3B + (v * (0x14 - 0x3B)) / 100` (C division) to page-1 registers 16 and 17, and
`setLineOutVolume` writes `0x3A + (v * (0x1D - 0x3A)) / 100` to page-1 registers 18 and 19,
each register write coming right after a page-select write `[0x00, 1]`; volume 0 gives
0x3B (resp. 0x3A) and volume 100 gives 0x14 (resp. 0x1D). -/
theorem volume_linear_interpolation (c : CTAG_AudioCodec) (w : TwoWire) (v : Nat)
    (hv : v ≤ 100) :
    (∃ b : Nat, (b : Int) = 0x3B + Int.tdiv ((v : Int) * (0x14 - 0x3B)) 100 ∧
      (c.setHeadphoneVolume v w).sent = w.sent ++
        [(c._i2c_addr, [0x00, 1]), (c._i2c_addr, [16, b]),
         (c._i2c_addr, [0x00, 1]), (c._i2c_addr, [17, b])]) ∧
    (∃ b : Nat, (b : Int) = 0x3A + Int.tdiv ((v : Int) * (0x1D - 0x3A)) 100 ∧
      (c.setLineOutVolume v w).sent = w.sent ++
        [(c._i2c_addr, [0x00, 1]), (c._i2c_addr, [18, b]),
         (c._i2c_addr, [0x00, 1]), (c._i2c_addr, [19, b])]) ∧
    (c.setHeadphoneVolume 0 w).sent = w.sent ++
        [(c._i2c_addr, [0x00, 1]), (c._i2c_addr, [16, 0x3B]),
         (c._i2c_addr, [0x00, 1]), (c._i2c_addr, [17, 0x3B])] ∧
    (c.setHeadphoneVolume 100 w).sent = w.sent ++
        [(c._i2c_addr, [0x00, 1]), (c._i2c_addr, [16, 0x14]),
         (c._i2c_addr, [0x00, 1]), (c._i2c_addr, [17, 0x14])] ∧
    (c.setLineOutVolume 0 w).sent = w.sent ++
        [(c._i2c_addr, [0x00, 1]), (c._i2c_addr, [18, 0x3A]),
         (c._i2c_addr, [0x00, 1]), (c._i2c_addr, [19, 0x3A])] ∧
    (c.setLineOutVolume 100 w).sent = w.sent ++
        [(c._i2c_addr, [0x00, 1]), (c._i2c_addr, [18, 0x1D]),
         (c._i2c_addr, [0x00, 1]), (c._i2c_addr, [19, 0x1D])] := by
  have hp := fun (u : Nat) (hu : u ≤ 100) => by
    have := setHeadphoneVolume_sent c u w
    rw [constrain_volume_le u hu, (headphone_reg_val u hu).1] at this
    exact this
  have lo := fun (u : Nat) (hu : u ≤ 100) => by
    have := setLineOutVolume_sent c u w
    rw [constrain_volume_le u hu, (lineout_reg_val u hu).1] at this
    exact this
  refine ⟨⟨59 - v * 39 / 100, ((headphone_reg_val v hv).2).symm, hp v hv⟩,
    ⟨58 - v * 29 / 100, ((lineout_reg_val v hv).2).symm, lo v hv⟩,
    hp 0 (by decide), hp 100 (by decide), lo 0 (by decide), lo 100 (by decide)⟩

/-- Witness for C4 at volume 50 on an idle bus, codec at address 0x18: the bytes are
0x28 (headphone) and 0x2C (line-out). -/
theorem volume_linear_interpolation_witness :
    ((CTAG_AudioCodec.mk 0x18).setHeadphoneVolume 50 ⟨0, [], []⟩).sent =
      [(0x18, [0x00, 1]), (0x18, [16, 0x28]), (0x18, [0x00, 1]), (0x18, [17, 0x28])] ∧
    (∃ b : Nat, (b : Int) = 0x3A + Int.tdiv ((50 : Int) * (0x1D - 0x3A)) 100 ∧
      ((CTAG_AudioCodec.mk 0x18).setLineOutVolume 50 ⟨0, [], []⟩).sent = [] ++
        [(0x18, [0x00, 1]), (0x18, [18, b]), (0x18, [0x00, 1]), (0x18, [19, b])]) :=
  ⟨by decide, (volume_linear_interpolation ⟨0x18⟩ ⟨0, [], []⟩ 50 (by decide)).2.1⟩

end CodecTheorems

section EngineTheorems

open CTAG_AudioEngine

variable {σ : Type}

/-- With enough fuel the `for` loop entered at index `2 * k` runs the body for the
remaining `m = 256 - k` frames and exits. -/
theorem forLoop_eq_bodies (gns : σ → Int × σ) :
    ∀ (m k fuel : Nat) (st : TaskState σ), k + m = 256 → m < fuel →
      forLoop gns fuel (2 * k) st = some (bodies gns m k st) := by
  intro m
  induction m with
  | zero =>
    intro k fuel st hk hf
    obtain ⟨f, rfl⟩ : ∃ f, fuel = f + 1 := ⟨fuel - 1, by omega⟩
    have : ¬ (2 * k < buffer_samples * 2) := by unfold buffer_samples; omega
    simp [forLoop, bodies, this]
  | succ m ih =>
    intro k fuel st hk hf
    obtain ⟨f, rfl⟩ : ∃ f, fuel = f + 1 := ⟨fuel - 1, by omega⟩
    have : 2 * k < buffer_samples * 2 := by unfold buffer_samples; omega
    simp only [forLoop, bodies, this, if_true]
    have := ih (k + 1) f (loopBody gns (2 * k) st) (by omega) (by omega)
    rw [← this]
    congr 1

/-- Reading the buffer after the two stores of one loop body. -/
theorem getElem?_set_pair (buf : List Int) (i : Nat) (x : Int) (j : Nat)
    (h : i + 1 < buf.length) :
    ((buf.set i x).set (i + 1) x)[j]? = if j = i ∨ j = i + 1 then some x else buf[j]? := by
  rw [List.getElem?_set, List.getElem?_set, List.length_set]
  by_cases h1 : i + 1 = j
  · have : j = i ∨ j = i + 1 := Or.inr h1.symm
    simp [h1, this, h]
    omega
  · by_cases h2 : i = j
    · subst h2
      simp [h1]
      omega
    · have : ¬ (j = i ∨ j = i + 1) := by omega
      simp [h1, h2, this]

/-- The block-fill loop without a source: fields other than the buffer are untouched and
the frames visited are zeroed. -/
theorem bodies_none (gns : σ → Int × σ) :
    ∀ (m k : Nat) (st : TaskState σ), st.currentSource = none →
      2 * (k + m) ≤ st.i2s_buffer.length →
      (bodies gns m k st).currentSource = none ∧
      (bodies gns m k st).pulled = st.pulled ∧
      (bodies gns m k st).written = st.written ∧
      (bodies gns m k st)._i2s_port = st._i2s_port ∧
      (bodies gns m k st).i2s_buffer.length = st.i2s_buffer.length ∧
      ∀ j, (bodies gns m k st).i2s_buffer[j]? =
        if 2 * k ≤ j ∧ j < 2 * (k + m) then some 0 else st.i2s_buffer[j]? := by
  intro m
  induction m with
  | zero =>
    intro k st _ _
    refine ⟨by assumption, rfl, rfl, rfl, rfl, ?_⟩
    intro j
    have : ¬ (2 * k ≤ j ∧ j < 2 * k) := by omega
    simp [bodies, this]
  | succ m ih =>
    intro k st hsrc hlen
    have hb : loopBody gns (2 * k) st =
        { st with i2s_buffer := (st.i2s_buffer.set (2 * k) 0).set (2 * k + 1) 0 } := by
      simp [loopBody, hsrc]
    have hl : (loopBody gns (2 * k) st).i2s_buffer.length = st.i2s_buffer.length := by
      rw [hb]; simp
    obtain ⟨h1, h2, h3, h4, h5, h6⟩ := ih (k + 1) (loopBody gns (2 * k) st)
      (by rw [hb]; exact hsrc) (by rw [hl]; omega)
    simp only [bodies]
    refine ⟨h1, ?_, ?_, ?_, ?_, ?_⟩
    · rw [h2, hb]
    · rw [h3, hb]
    · rw [h4, hb]
    · rw [h5, hl]
    · intro j
      rw [h6 j, hb]
      simp only
      rw [getElem?_set_pair _ _ _ _ (by omega)]
      by_cases c1 : 2 * (k + 1) ≤ j ∧ j < 2 * (k + 1 + m)
      · have : 2 * k ≤ j ∧ j < 2 * (k + (m + 1)) := by omega
        simp [c1, this]
      · by_cases c2 : j = 2 * k ∨ j = 2 * k + 1
        · have : 2 * k ≤ j ∧ j < 2 * (k + (m + 1)) := by omega
          simp [c1, c2, this]
        · have : ¬ (2 * k ≤ j ∧ j < 2 * (k + (m + 1))) := by omega
          simp [c1, c2, this]

/-- The samples of a source whose first call has been made already. -/
theorem sampleAt_succ (gns : σ → Int × σ) (s : σ) (k : Nat) :
    sampleAt gns s (k + 1) = sampleAt gns (gns s).2 k := rfl

/-- The block-fill loop with a bound source: one call of `getNextSample` per frame, the
value stored in both slots of the frame. -/
theorem bodies_some (gns : σ → Int × σ) :
    ∀ (m k : Nat) (st : TaskState σ) (s : σ), st.currentSource = some s →
      2 * (k + m) ≤ st.i2s_buffer.length →
      (bodies gns m k st).currentSource = some (sourceAfter gns s m) ∧
      (bodies gns m k st).pulled = st.pulled ++ (List.range m).map (sampleAt gns s) ∧
      (bodies gns m k st).written = st.written ∧
      (bodies gns m k st)._i2s_port = st._i2s_port ∧
      (bodies gns m k st).i2s_buffer.length = st.i2s_buffer.length ∧
      ∀ j, (bodies gns m k st).i2s_buffer[j]? =
        if 2 * k ≤ j ∧ j < 2 * (k + m) then some (sampleAt gns s ((j - 2 * k) / 2))
        else st.i2s_buffer[j]? := by
  intro m
  induction m with
  | zero =>
    intro k st s hsrc _
    refine ⟨by simpa [bodies, sourceAfter] using hsrc, by simp [bodies], rfl, rfl, rfl, ?_⟩
    intro j
    have : ¬ (2 * k ≤ j ∧ j < 2 * k) := by omega
    simp [bodies, this]
  | succ m ih =>
    intro k st s hsrc hlen
    have hb : loopBody gns (2 * k) st =
        { st with
          currentSource := some (gns s).2
          pulled := st.pulled ++ [(gns s).1]
          i2s_buffer := (st.i2s_buffer.set (2 * k) (gns s).1).set (2 * k + 1) (gns s).1 } := by
      simp [loopBody, hsrc]
    have hl : (loopBody gns (2 * k) st).i2s_buffer.length = st.i2s_buffer.length := by
      rw [hb]; simp
    obtain ⟨h1, h2, h3, h4, h5, h6⟩ := ih (k + 1) (loopBody gns (2 * k) st) (gns s).2
      (by rw [hb]) (by rw [hl]; omega)
    simp only [bodies]
    refine ⟨?_, ?_, ?_, ?_, ?_, ?_⟩
    · rw [h1]; rfl
    · rw [h2, hb]
      simp only [List.range_succ_eq_map, List.map_cons, List.map_map, List.append_assoc,
        List.singleton_append]
      rfl
    · rw [h3, hb]
    · rw [h4, hb]
    · rw [h5, hl]
    · intro j
      rw [h6 j, hb]
      simp only
      rw [getElem?_set_pair _ _ _ _ (by omega)]
      by_cases c1 : 2 * (k + 1) ≤ j ∧ j < 2 * (k + 1 + m)
      · have c : 2 * k ≤ j ∧ j < 2 * (k + (m + 1)) := by omega
        have e : (j - 2 * k) / 2 = (j - 2 * (k + 1)) / 2 + 1 := by omega
        simp only [c1, c, and_self, if_true, e, sampleAt_succ]
      · by_cases c2 : j = 2 * k ∨ j = 2 * k + 1
        · have c : 2 * k ≤ j ∧ j < 2 * (k + (m + 1)) := by omega
          have e : (j - 2 * k) / 2 = 0 := by omega
          simp only [c1, c2, c, and_self, if_true, if_false, e]
          rfl
        · have c : ¬ (2 * k ≤ j ∧ j < 2 * (k + (m + 1))) := by omega
          simp only [c1, c2, c, if_false]

/-- The data handed to the sink by `i2s_write` with `sizeof(i2s_buffer)` is the whole
512-value array. -/
theorem i2s_write_whole (st : TaskState σ) (h : st.i2s_buffer.length = 512) :
    i2s_write st sizeof_i2s_buffer =
      { st with written := st.written ++
          [{ port := st._i2s_port, data := st.i2s_buffer, size := 1024 }] } := by
  have e : sizeof_i2s_buffer / sizeof_int16 = 512 := by decide
  have e2 : sizeof_i2s_buffer = 1024 := by decide
  simp only [i2s_write, e]
  rw [e2, List.take_of_length_le (by omega)]

/-- C1: with no source bound, one iteration of the `audio_task` loop (any fuel above the
256 passes it needs) returns, leaves a buffer of exactly 512 values all equal to 0, makes
no source call, and hands exactly that block (512 values, 1024 bytes) to `i2s_write` as
its one additional write. -/
theorem unbound_source_block_is_silence (gns : σ → Int × σ) (st : TaskState σ) (fuel : Nat)
    (hsrc : st.currentSource = none) (hlen : st.i2s_buffer.length = 512)
    (hfuel : 256 < fuel) :
    ∃ st1, audio_task_iteration gns fuel st = some st1 ∧
      st1.i2s_buffer = List.replicate 512 0 ∧
      st1.i2s_buffer.length = 512 ∧
      (∀ j, j < 512 → st1.i2s_buffer[j]? = some 0) ∧
      st1.written = st.written ++
        [{ port := st._i2s_port, data := List.replicate 512 0, size := 1024 }] ∧
      st1.pulled = st.pulled ∧
      st1.currentSource = none := by
  have hloop := forLoop_eq_bodies gns 256 0 fuel st (by norm_num) hfuel
  obtain ⟨h1, h2, h3, h4, h5, h6⟩ := bodies_none gns 256 0 st hsrc (by omega)
  have hbuf : (bodies gns 256 0 st).i2s_buffer = List.replicate 512 0 := by
    apply List.ext_getElem?
    intro j
    rw [h6 j]
    by_cases c : j < 512
    · have c2 : 2 * 0 ≤ j ∧ j < 2 * (0 + 256) := by omega
      rw [if_pos c2, List.getElem?_replicate, if_pos c]
    · have c2 : ¬ (2 * 0 ≤ j ∧ j < 2 * (0 + 256)) := by omega
      have c3 : st.i2s_buffer.length ≤ j := by omega
      rw [if_neg c2, List.getElem?_eq_none c3, List.getElem?_replicate, if_neg c]
  refine ⟨i2s_write (bodies gns 256 0 st) sizeof_i2s_buffer, ?_, ?_⟩
  · simp only [audio_task_iteration]
    rw [show (0 : Nat) = 2 * 0 by rfl, hloop]
  · rw [i2s_write_whole _ (by rw [h5, hlen])]
    simp only
    refine ⟨hbuf, by rw [hbuf, List.length_replicate], ?_, by rw [h3, h4, hbuf], h2, h1⟩
    intro j hj
    rw [hbuf, List.getElem?_replicate, if_pos hj]

/-- Witness for C1: an engine on port 0 with no source, a buffer holding 512 sevens and
nothing written yet, run with fuel 300 (the source method is irrelevant). -/
theorem unbound_source_block_is_silence_witness :
    ∃ st1, audio_task_iteration (fun n : Nat => ((n : Int), n + 1)) 300
        ⟨none, 0, List.replicate 512 7, [], []⟩ = some st1 ∧
      st1.i2s_buffer = List.replicate 512 0 ∧
      st1.i2s_buffer.length = 512 ∧
      (∀ j, j < 512 → st1.i2s_buffer[j]? = some 0) ∧
      st1.written = [] ++ [{ port := 0, data := List.replicate 512 0, size := 1024 }] ∧
      st1.pulled = [] ∧
      st1.currentSource = none :=
  unbound_source_block_is_silence (fun n : Nat => ((n : Int), n + 1))
    ⟨none, 0, List.replicate 512 7, [], []⟩ 300 rfl (List.length_replicate _ _) (by decide)

/-- C2: with a source bound (object state `s`), one iteration of the `audio_task` loop
(any fuel above the 256 passes it needs) returns having called `getNextSample` exactly
256 times (the log grows by the values of calls 0..255, in order, and the object is left
in its state after 256 calls), and for every frame `k < 256` both `i2s_buffer[2k]` and
`i2s_buffer[2k+1]` hold the value returned by call `k`; that block is what is written. -/
theorem bound_source_block_is_samples (gns : σ → Int × σ) (st : TaskState σ) (s : σ)
    (fuel : Nat) (hsrc : st.currentSource = some s) (hlen : st.i2s_buffer.length = 512)
    (hfuel : 256 < fuel) :
    ∃ st1, audio_task_iteration gns fuel st = some st1 ∧
      st1.pulled = st.pulled ++ (List.range 256).map (sampleAt gns s) ∧
      st1.pulled.length = st.pulled.length + 256 ∧
      st1.currentSource = some (sourceAfter gns s 256) ∧
      st1.i2s_buffer.length = 512 ∧
      (∀ k, k < 256 →
        st1.i2s_buffer[2 * k]? = some (sampleAt gns s k) ∧
        st1.i2s_buffer[2 * k + 1]? = some (sampleAt gns s k)) ∧
      st1.written = st.written ++
        [{ port := st._i2s_port, data := st1.i2s_buffer, size := 1024 }] := by
  have hloop := forLoop_eq_bodies gns 256 0 fuel st (by norm_num) hfuel
  obtain ⟨h1, h2, h3, h4, h5, h6⟩ := bodies_some gns 256 0 st s hsrc (by omega)
  refine ⟨i2s_write (bodies gns 256 0 st) sizeof_i2s_buffer, ?_, ?_⟩
  · simp only [audio_task_iteration]
    rw [show (0 : Nat) = 2 * 0 by rfl, hloop]
  · rw [i2s_write_whole _ (by rw [h5, hlen])]
    simp only
    refine ⟨h2, by rw [h2]; simp, h1, by rw [h5, hlen], ?_, by rw [h3, h4]⟩
    intro k hk
    have c1 : 2 * 0 ≤ 2 * k ∧ 2 * k < 2 * (0 + 256) := by omega
    have c2 : 2 * 0 ≤ 2 * k + 1 ∧ 2 * k + 1 < 2 * (0 + 256) := by omega
    have e1 : (2 * k - 2 * 0) / 2 = k := by omega
    have e2 : (2 * k + 1 - 2 * 0) / 2 = k := by omega
    rw [h6 (2 * k), h6 (2 * k + 1), if_pos c1, if_pos c2, e1, e2]
    exact ⟨rfl, rfl⟩

/-- Witness for C2: the source is a counter (call `k` returns `k`), the buffer holds 512
sevens, fuel 300. -/
theorem bound_source_block_is_samples_witness :
    ∃ st1, audio_task_iteration (fun n : Nat => ((n : Int), n + 1)) 300
        ⟨some 0, 0, List.replicate 512 7, [], []⟩ = some st1 ∧
      st1.pulled = [] ++ (List.range 256).map (sampleAt (fun n : Nat => ((n : Int), n + 1)) 0) ∧
      st1.pulled.length = 0 + 256 ∧
      st1.currentSource = some (sourceAfter (fun n : Nat => ((n : Int), n + 1)) 0 256) ∧
      st1.i2s_buffer.length = 512 ∧
      (∀ k, k < 256 →
        st1.i2s_buffer[2 * k]? = some (sampleAt (fun n : Nat => ((n : Int), n + 1)) 0 k) ∧
        st1.i2s_buffer[2 * k + 1]? = some (sampleAt (fun n : Nat => ((n : Int), n + 1)) 0 k)) ∧
      st1.written = [] ++ [{ port := 0, data := st1.i2s_buffer, size := 1024 }] :=
  bound_source_block_is_samples (fun n : Nat => ((n : Int), n + 1))
    ⟨some 0, 0, List.replicate 512 7, [], []⟩ 0 300 rfl (List.length_replicate _ _) (by decide)

end EngineTheorems

section OscillatorTheorems

open CTAG_VCO_Sine

/-- C7: `setAmplitude` clamps to [0, 1]: above 1 the object is left as by `setAmplitude(1)`,
below 0 as by `setAmplitude(0)`, inside [0, 1] the stored amplitude is the argument; the
sample rate, frequency, phase and phase increment are never changed. -/
theorem setAmplitude_clamps {F : Type} [LinearOrderedField F] (o : CTAG_VCO_Sine F) (a : F) :
    (1 < a → setAmplitude o a = setAmplitude o 1) ∧
    (a < 0 → setAmplitude o a = setAmplitude o 0) ∧
    (0 ≤ a → a ≤ 1 → (setAmplitude o a)._amplitude = a) ∧
    (setAmplitude o a)._frequency = o._frequency ∧
    (setAmplitude o a)._phase = o._phase ∧
    (setAmplitude o a)._phase_increment = o._phase_increment ∧
    (setAmplitude o a)._sampleRate = o._sampleRate := by
  refine ⟨?_, ?_, ?_, rfl, rfl, rfl, rfl⟩
  · intro h
    have h0 : ¬ (a < 0) := not_lt.mpr (le_trans zero_le_one h.le)
    have h1 : ¬ ((1 : F) < 0) := not_lt.mpr zero_le_one
    have h2 : ¬ ((1 : F) > 1) := lt_irrefl 1
    simp only [setAmplitude, constrain, h0, h1, h2, if_false, gt_iff_lt, h, if_true]
  · intro h
    have h1 : ¬ ((0 : F) < 0) := lt_irrefl 0
    have h2 : ¬ ((0 : F) > 1) := not_lt.mpr zero_le_one
    simp only [setAmplitude, constrain, h, h1, h2, if_false, if_true]
  · intro h0 h1
    have h0' : ¬ (a < 0) := not_lt.mpr h0
    have h1' : ¬ (a > 1) := not_lt.mpr h1
    simp only [setAmplitude, constrain, h0', h1', if_false]

/-- Witness for C7 over the rationals: `setAmplitude(1.5)` on the freshly initialised
members leaves the object as `setAmplitude(1.0)` does, `setAmplitude(-1/4)` as
`setAmplitude(0)`, and `setAmplitude(3/4)` stores 3/4. -/
theorem setAmplitude_clamps_witness :
    setAmplitude (⟨44100, 440, 1 / 2, 0, 0⟩ : CTAG_VCO_Sine ℚ) (3 / 2) =
      setAmplitude ⟨44100, 440, 1 / 2, 0, 0⟩ 1 ∧
    setAmplitude (⟨44100, 440, 1 / 2, 0, 0⟩ : CTAG_VCO_Sine ℚ) (-1 / 4) =
      setAmplitude ⟨44100, 440, 1 / 2, 0, 0⟩ 0 ∧
    (setAmplitude (⟨44100, 440, 1 / 2, 0, 0⟩ : CTAG_VCO_Sine ℚ) (3 / 4))._amplitude = 3 / 4 :=
  ⟨(setAmplitude_clamps _ _).1 (by norm_num),
   (setAmplitude_clamps _ _).2.1 (by norm_num),
   (setAmplitude_clamps _ _).2.2.1 (by norm_num) (by norm_num)⟩

/-- Truncation toward zero of a non-negative value: the floor. -/
theorem truncate_of_nonneg {F : Type} [LinearOrderedField F] [FloorRing F] (x : F)
    (h : 0 ≤ x) : 0 ≤ truncate x ∧ (truncate x : F) ≤ x ∧ x < (truncate x : F) + 1 := by
  unfold truncate
  rw [if_pos h]
  exact ⟨Int.floor_nonneg.mpr h, Int.floor_le x, Int.lt_floor_add_one x⟩

/-- Truncation toward zero of a non-positive value: the ceiling. -/
theorem truncate_of_nonpos {F : Type} [LinearOrderedField F] [FloorRing F] (x : F)
    (h : x ≤ 0) : truncate x ≤ 0 ∧ x ≤ (truncate x : F) ∧ (truncate x : F) - 1 < x := by
  unfold truncate
  by_cases h0 : 0 ≤ x
  · have hx : x = 0 := le_antisymm h h0
    subst hx
    simp
  · rw [if_neg h0]
    refine ⟨Int.ceil_le.mpr (by simpa using h), Int.le_ceil x, ?_⟩
    have := Int.ceil_lt_add_one x
    linarith

/-- A property kept by every method call holds after any sequence of calls. -/
theorem calls_induction {F : Type} [LinearOrderedField F] [FloorRing F] (sin : F → F)
    (M_PI : F) (P : CTAG_VCO_Sine F → Prop) (Q : Call F → Prop)
    (step : ∀ o c, P o → Q c → P (call sin M_PI o c)) :
    ∀ (cs : List (Call F)) (o : CTAG_VCO_Sine F), P o → (∀ c ∈ cs, Q c) →
      P (calls sin M_PI o cs) := by
  intro cs
  induction cs with
  | nil => intro o h _; exact h
  | cons c cs ih =>
    intro o h hq
    have : calls sin M_PI o (c :: cs) = calls sin M_PI (call sin M_PI o c) cs := rfl
    rw [this]
    exact ih _ (step o c h (hq c (List.mem_cons_self _ _)))
      (fun d hd => hq d (List.mem_cons_of_mem _ hd))

/-- Counterexample to C6 as stated: with amplitude 7/10 and phase pi/2 the value is
22936.9; `getNextSample` returns 22936 (truncation), the nearest integer is 22937. -/
theorem getNextSample_not_nearest :
    (getNextSample Real.sin Real.pi
        ⟨44100, 11025, 7 / 10, Real.pi / 2, Real.pi / 2⟩).1 = some 22936 ∧
    round ((7 / 10 : ℝ) * 32767 * Real.sin (Real.pi / 2)) = 22937 ∧
    (getNextSample Real.sin Real.pi
        ⟨44100, 11025, 7 / 10, Real.pi / 2, Real.pi / 2⟩).1 ≠
      some (round ((7 / 10 : ℝ) * 32767 * Real.sin (Real.pi / 2))) := by
  have hv : (7 / 10 : ℝ) * 32767 * Real.sin (Real.pi / 2) = 229369 / 10 := by
    rw [Real.sin_pi_div_two]; norm_num
  have ht : truncate ((229369 / 10 : ℝ)) = 22936 := by
    unfold truncate
    rw [if_pos (by norm_num)]
    rw [Int.floor_eq_iff]
    constructor <;> norm_num
  have h1 : (getNextSample Real.sin Real.pi
      ⟨44100, 11025, 7 / 10, Real.pi / 2, Real.pi / 2⟩).1 = some 22936 := by
    simp only [getNextSample, floatToInt16]
    rw [hv, ht]
    rfl
  have h2 : round ((7 / 10 : ℝ) * 32767 * Real.sin (Real.pi / 2)) = 22937 := by
    rw [hv, round_eq, Int.floor_eq_iff]
    constructor <;> norm_num
  refine ⟨h1, h2, ?_⟩
  rw [h1, h2]
  decide

/-- C6 (amended): when `x = amplitude * 32767 * sin(phase)`, taken at the phase held
before the call, lies strictly between -32769 and 32768, `getNextSample` returns `x`
truncated toward zero (the integer `y` between 0 and `x` with `|x - y| < 1`), and the
object is left with its phase equal to `phase + increment`, less `2 * pi` when that sum
is at least `2 * pi`, the other members unchanged. -/
theorem getNextSample_truncates_then_advances (o : CTAG_VCO_Sine ℝ)
    (hlo : -32769 < o._amplitude * 32767 * Real.sin o._phase)
    (hhi : o._amplitude * 32767 * Real.sin o._phase < 32768) :
    (∃ y : Int, (getNextSample Real.sin Real.pi o).1 = some y ∧
      (0 ≤ o._amplitude * 32767 * Real.sin o._phase →
        0 ≤ y ∧ (y : ℝ) ≤ o._amplitude * 32767 * Real.sin o._phase ∧
        o._amplitude * 32767 * Real.sin o._phase < (y : ℝ) + 1) ∧
      (o._amplitude * 32767 * Real.sin o._phase ≤ 0 →
        y ≤ 0 ∧ o._amplitude * 32767 * Real.sin o._phase ≤ (y : ℝ) ∧
        (y : ℝ) - 1 < o._amplitude * 32767 * Real.sin o._phase)) ∧
    (getNextSample Real.sin Real.pi o).2 =
      { o with _phase :=
          if o._phase + o._phase_increment ≥ 2 * Real.pi
          then o._phase + o._phase_increment - 2 * Real.pi
          else o._phase + o._phase_increment } := by
  refine ⟨⟨truncate (o._amplitude * 32767 * Real.sin o._phase), ?_,
    truncate_of_nonneg _, truncate_of_nonpos _⟩, rfl⟩
  have hr : -32768 ≤ truncate (o._amplitude * 32767 * Real.sin o._phase) ∧
      truncate (o._amplitude * 32767 * Real.sin o._phase) ≤ 32767 := by
    rcases le_total 0 (o._amplitude * 32767 * Real.sin o._phase) with h | h
    · obtain ⟨t1, t2, _⟩ := truncate_of_nonneg _ h
      refine ⟨by omega, ?_⟩
      have : ((truncate (o._amplitude * 32767 * Real.sin o._phase) : Int) : ℝ) <
          ((32768 : Int) : ℝ) := by push_cast; linarith
      have := Int.cast_lt.mp this
      omega
    · obtain ⟨t1, _, t3⟩ := truncate_of_nonpos _ h
      refine ⟨?_, by omega⟩
      have : ((-32769 : Int) : ℝ) <
          ((truncate (o._amplitude * 32767 * Real.sin o._phase) : Int) : ℝ) := by
        push_cast; linarith
      have := Int.cast_lt.mp this
      omega
  simp only [getNextSample, floatToInt16]
  rw [if_pos hr]

/-- Witness for C6 (amended): amplitude 7/10, phase pi/2 (value 22936.9). -/
theorem getNextSample_truncates_then_advances_witness :
    (getNextSample Real.sin Real.pi
        ⟨44100, 11025, 7 / 10, Real.pi / 2, Real.pi / 2⟩).2 =
      { (⟨44100, 11025, 7 / 10, Real.pi / 2, Real.pi / 2⟩ : CTAG_VCO_Sine ℝ) with
        _phase :=
          if Real.pi / 2 + Real.pi / 2 ≥ 2 * Real.pi
          then Real.pi / 2 + Real.pi / 2 - 2 * Real.pi
          else Real.pi / 2 + Real.pi / 2 } :=
  (getNextSample_truncates_then_advances ⟨44100, 11025, 7 / 10, Real.pi / 2, Real.pi / 2⟩
    (by simp only [Real.sin_pi_div_two]; norm_num)
    (by simp only [Real.sin_pi_div_two]; norm_num)).2

/-- One `getNextSample` on a wrapped phase with an increment of at most one turn: the new
phase is wrapped again and is the sum reduced modulo `2 * pi`. -/
theorem getNextSample_phase_wrapped (o : CTAG_VCO_Sine ℝ)
    (hp0 : 0 ≤ o._phase) (hp1 : o._phase < 2 * Real.pi)
    (hi0 : 0 ≤ o._phase_increment) (hi1 : o._phase_increment ≤ 2 * Real.pi) :
    0 ≤ (getNextSample Real.sin Real.pi o).2._phase ∧
    (getNextSample Real.sin Real.pi o).2._phase < 2 * Real.pi ∧
    (getNextSample Real.sin Real.pi o).2._phase =
      o._phase + o._phase_increment -
        ⌊(o._phase + o._phase_increment) / (2 * Real.pi)⌋ * (2 * Real.pi) := by
  have hpi : 0 < 2 * Real.pi := by positivity
  by_cases hw : o._phase + o._phase_increment ≥ 2 * Real.pi
  · have hfl : ⌊(o._phase + o._phase_increment) / (2 * Real.pi)⌋ = 1 := by
      rw [Int.floor_eq_iff]
      constructor
      · rw [le_div_iff₀ hpi]; push_cast; linarith
      · rw [div_lt_iff₀ hpi]; push_cast; linarith
    simp only [getNextSample, if_pos hw, hfl]
    refine ⟨by linarith, by linarith, by push_cast; ring⟩
  · have hw2 : o._phase + o._phase_increment < 2 * Real.pi := not_le.mp hw
    have hfl : ⌊(o._phase + o._phase_increment) / (2 * Real.pi)⌋ = 0 := by
      rw [Int.floor_eq_iff]
      constructor
      · rw [le_div_iff₀ hpi]; push_cast; linarith
      · rw [div_lt_iff₀ hpi]; push_cast; linarith
    simp only [getNextSample, if_neg hw, hfl]
    refine ⟨by linarith, hw2, by push_cast; ring⟩

/-- Counterexample to C8 as stated: an oscillator constructed with sample rate 100 gets the
increment `2 * pi * 440 / 100` from its constructor, and after one `getNextSample` its
phase is `6.8 * pi`, outside `[0, 2 * pi)`. -/
theorem phase_wrap_fails_low_sample_rate :
    (∀ c ∈ [Call.getNextSample], Call.frequencyWithin (100 : ℝ) c) ∧
    (calls Real.sin Real.pi (new Real.pi 100) [Call.getNextSample])._phase =
      34 / 5 * Real.pi ∧
    ¬ ((calls Real.sin Real.pi (new Real.pi 100) [Call.getNextSample])._phase <
      2 * Real.pi) := by
  have hpi := Real.pi_pos
  have hw : (0 : ℝ) + (2 * Real.pi * 440) / 100 ≥ 2 * Real.pi := by
    have : (0 : ℝ) + (2 * Real.pi * 440) / 100 = 44 / 5 * Real.pi := by ring
    rw [this]; nlinarith
  have hph : (calls Real.sin Real.pi (new Real.pi 100) [Call.getNextSample])._phase =
      34 / 5 * Real.pi := by
    show (if (0 : ℝ) + (2 * Real.pi * 440) / 100 ≥ 2 * Real.pi
      then (0 : ℝ) + (2 * Real.pi * 440) / 100 - 2 * Real.pi
      else (0 : ℝ) + (2 * Real.pi * 440) / 100) = 34 / 5 * Real.pi
    rw [if_pos hw]; ring
  refine ⟨?_, hph, ?_⟩
  · intro c hc
    rw [List.mem_singleton] at hc
    subst hc
    trivial
  · rw [hph]; nlinarith

/-- C8 (amended): a phase in `[0, 2 * pi)` with an increment in `[0, 2 * pi]` is taken by
`getNextSample` to `(phase + increment)` reduced modulo `2 * pi`, again in `[0, 2 * pi)`;
hence for an oscillator constructed with a sample rate of at least 440 the phase is in
`[0, 2 * pi)` (and the increment in `[0, 2 * pi]`) after any sequence of
`getNextSample`, `setFrequency(f)` with `0 ≤ f ≤ sampleRate`, and `setAmplitude` calls. -/
theorem phase_stays_wrapped (r : ℝ) (cs : List (Call ℝ)) (hr : 440 ≤ r)
    (hcs : ∀ c ∈ cs, Call.frequencyWithin r c) :
    (∀ o : CTAG_VCO_Sine ℝ, 0 ≤ o._phase → o._phase < 2 * Real.pi →
      0 ≤ o._phase_increment → o._phase_increment ≤ 2 * Real.pi →
      0 ≤ (getNextSample Real.sin Real.pi o).2._phase ∧
      (getNextSample Real.sin Real.pi o).2._phase < 2 * Real.pi ∧
      (getNextSample Real.sin Real.pi o).2._phase =
        o._phase + o._phase_increment -
          ⌊(o._phase + o._phase_increment) / (2 * Real.pi)⌋ * (2 * Real.pi)) ∧
    (new Real.pi r)._phase = 0 ∧
    0 ≤ (calls Real.sin Real.pi (new Real.pi r) cs)._phase ∧
    (calls Real.sin Real.pi (new Real.pi r) cs)._phase < 2 * Real.pi ∧
    0 ≤ (calls Real.sin Real.pi (new Real.pi r) cs)._phase_increment ∧
    (calls Real.sin Real.pi (new Real.pi r) cs)._phase_increment ≤ 2 * Real.pi := by
  have hpi := Real.pi_pos
  have hr0 : 0 < r := by linarith
  have hinc : ∀ f : ℝ, 0 ≤ f → f ≤ r →
      0 ≤ (2 * Real.pi * f) / r ∧ (2 * Real.pi * f) / r ≤ 2 * Real.pi := by
    intro f h0 h1
    constructor
    · positivity
    · rw [div_le_iff₀ hr0]; nlinarith
  have hinv := calls_induction Real.sin Real.pi
    (fun o => o._sampleRate = r ∧ 0 ≤ o._phase ∧ o._phase < 2 * Real.pi ∧
      0 ≤ o._phase_increment ∧ o._phase_increment ≤ 2 * Real.pi)
    (Call.frequencyWithin r)
    (by
      intro o c h hc
      obtain ⟨h0, h1, h2, h3, h4⟩ := h
      cases c with
      | setFrequency freq =>
        obtain ⟨a, b⟩ := hinc freq hc.1 hc.2
        refine ⟨h0, h1, h2, ?_, ?_⟩
        · show 0 ≤ (2 * Real.pi * freq) / o._sampleRate
          rw [h0]; exact a
        · show (2 * Real.pi * freq) / o._sampleRate ≤ 2 * Real.pi
          rw [h0]; exact b
      | setAmplitude amp => exact ⟨h0, h1, h2, h3, h4⟩
      | getNextSample =>
        obtain ⟨a, b, _⟩ := getNextSample_phase_wrapped o h1 h2 h3 h4
        exact ⟨h0, a, b, h3, h4⟩)
    cs (new Real.pi r)
    (by
      obtain ⟨a, b⟩ := hinc 440 (by norm_num) hr
      exact ⟨rfl, le_refl _, by show (0 : ℝ) < 2 * Real.pi; positivity, a, b⟩)
    hcs
  exact ⟨fun o a b c d => getNextSample_phase_wrapped o a b c d, rfl,
    hinv.2.1, hinv.2.2.1, hinv.2.2.2.1, hinv.2.2.2.2⟩

/-- Witness for C8 (amended): sample rate 44100, the calls `setFrequency(22050)`,
`getNextSample`, `setAmplitude(2)`, `getNextSample`. -/
theorem phase_stays_wrapped_witness :
    0 ≤ (calls Real.sin Real.pi (new Real.pi 44100)
      [Call.setFrequency 22050, Call.getNextSample, Call.setAmplitude 2,
        Call.getNextSample])._phase ∧
    (calls Real.sin Real.pi (new Real.pi 44100)
      [Call.setFrequency 22050, Call.getNextSample, Call.setAmplitude 2,
        Call.getNextSample])._phase < 2 * Real.pi :=
  have h := phase_stays_wrapped 44100
    [Call.setFrequency 22050, Call.getNextSample, Call.setAmplitude 2, Call.getNextSample]
    (by norm_num)
    (by
      intro c hc
      simp only [List.mem_cons, List.mem_singleton, List.not_mem_nil, or_false] at hc
      rcases hc with h | h | h | h <;> subst h
      · exact ⟨by norm_num, by norm_num⟩
      · trivial
      · trivial
      · trivial)
  ⟨h.2.2.1, h.2.2.2.1⟩

end OscillatorTheorems

section SpecialValueTheorems

open CTAG_VCO_Sine

end SpecialValueTheorems

section MidiTheorems

open CTAG_MIDI

/-- C9: for every value `v` in -8192..8191 and channel `c` in 1..16, `sendPitchBend(v, c)`
writes the three bytes `0xE0 + (c - 1)`, `(v + 8192) mod 128`, `(v + 8192) div 128` (and
nothing else); 0 goes to (0x00, 0x40), -8192 to (0x00, 0x00), 8191 to (0x7F, 0x7F); and a
parser with a pitch-bend handler, in any state, fed those three bytes invokes exactly one
callback, the pitch-bend one, with channel `c` and value `v`. -/
theorem pitch_bend_round_trip (tx rx : CTAG_MIDI) (v : Int) (c : Nat)
    (hv0 : -8192 ≤ v) (hv1 : v ≤ 8191) (hc0 : 1 ≤ c) (hc1 : c ≤ 16)
    (hreg : rx.handlePitchBend = true) :
    (tx.sendPitchBend v c).sent =
      tx.sent ++ [0xE0 + (c - 1), ((v + 8192) % 128).toNat, ((v + 8192) / 128).toNat] ∧
    (tx.sendPitchBend 0 c).sent = tx.sent ++ [0xE0 + (c - 1), 0x00, 0x40] ∧
    (tx.sendPitchBend (-8192) c).sent = tx.sent ++ [0xE0 + (c - 1), 0x00, 0x00] ∧
    (tx.sendPitchBend 8191 c).sent = tx.sent ++ [0xE0 + (c - 1), 0x7F, 0x7F] ∧
    (rx.feed [0xE0 + (c - 1), ((v + 8192) % 128).toNat, ((v + 8192) / 128).toNat]).invoked =
      rx.invoked ++ [MidiEvent.pitchBend c v] := by
  have _ := hc0
  have _ := hc1
  have hm : ((v + 8192) / 128 % 128) = (v + 8192) / 128 := by omega
  refine ⟨?_, ?_, ?_, ?_, ?_⟩
  · simp only [sendPitchBend, hm]
  · rfl
  · rfl
  · rfl
  · have b0 : ¬ (0xF8 ≤ 0xE0 + (c - 1)) := by omega
    have b1 : 0x80 ≤ 0xE0 + (c - 1) := by omega
    have l0 : ¬ (0xF8 ≤ ((v + 8192) % 128).toNat) := by omega
    have l1 : ¬ (0x80 ≤ ((v + 8192) % 128).toNat) := by omega
    have m0 : ¬ (0xF8 ≤ ((v + 8192) / 128).toNat) := by omega
    have m1 : ¬ (0x80 ≤ ((v + 8192) / 128).toNat) := by omega
    have s0 : ¬ (0xE0 + (c - 1) < 0x80) := by omega
    have t : (0xE0 + (c - 1)) / 16 = 0xE := by omega
    have ch : (0xE0 + (c - 1)) % 16 + 1 = c := by omega
    have val : (((((v + 8192) % 128).toNat + ((v + 8192) / 128).toNat * 128 : Nat) : Int)
        - 8192) = v := by omega
    have need : dataBytesNeeded (0xE0 + (c - 1)) ≠ 1 := by
      unfold dataBytesNeeded
      rw [t]; decide
    simp only [feed, List.foldl, parse, b0, b1, l0, l1, m0, m1, s0, need, if_true, if_false,
      dispatch, t, ch, val, hreg]
    simp

/-- Witness for C9: value 1000 on channel 3, both objects freshly initialised (no running
status), the receiver with only a pitch-bend handler. -/
theorem pitch_bend_round_trip_witness :
    ((CTAG_MIDI.mk 0 0 0 0 false false false false false [] []).sendPitchBend 1000 3).sent =
      [0xE2, 0x68, 0x47] ∧
    ((CTAG_MIDI.mk 0 0 0 0 false false false false true [] []).feed
      [0xE2, 0x68, 0x47]).invoked = [MidiEvent.pitchBend 3 1000] :=
  have h := pitch_bend_round_trip (CTAG_MIDI.mk 0 0 0 0 false false false false false [] [])
    (CTAG_MIDI.mk 0 0 0 0 false false false false true [] []) 1000 3
    (by decide) (by decide) (by decide) (by decide) rfl
  ⟨h.1, h.2.2.2.2⟩

end MidiTheorems

end CTAG
